/-
Verification of the tabular edit/sort/persist reconciliation logic of
GENERIC_VALUE_LOGGER (src/generic_value_logger_1.3.py).

The development is a shallow embedding of the program's data model and
operations:

* a DataFrame is a column-name list together with a list of rows;
* `_mk_sort_columns` / `_apply_sort` are translated line by line, with
  pandas' `sort_values(by, ascending, kind="mergesort")` modelled as a
  stable sort by the lexicographic comparison of the derived key columns,
  NaN/NaT placed last (the pandas `na_position` default); any stable sort
  computes this unique result, here `List.insertionSort`;
* the editor/save path (`save_edits`) is modelled on index-labelled rows,
  pandas `sort_index` being a sort by the (unique) index labels;
* `fetch_sheet_df` and the remote-write paths are modelled with explicit
  success/failure parameters standing for the external Google-Sheets calls.
-/
import Mathlib

namespace GVL

open scoped List

/-- A cell of the working table.  At rest every cell of the app's tables is
text (`Cell.s`); the `Cell.d` / `Cell.n` constructors are the values held by
the temporary helper sort columns `_sort1` / `_sort2`; `none` stands for
pandas NaT (unparsable date) respectively NaN (unparsable number). -/
inductive Cell where
  | s (v : String)
  | d (v : Option Nat)
  | n (v : Option Int)
deriving DecidableEq

abbrev Row := List Cell

/-- A pandas DataFrame: ordered column names plus rows of cells, each row
aligned positionally with `cols`. -/
structure DF where
  cols : List String
  rows : List Row
deriving DecidableEq

/-- The managed header (source line 106):
`COLUMNS = ["日時", "カテゴリ", "項目", "値", "単位", "補足"]`. -/
def COLUMNS : List String := ["日時", "カテゴリ", "項目", "値", "単位", "補足"]

/-- Digit value of a character. -/
def d2n (c : Char) : Nat := c.toNat - 48

/-- Modelled behaviour of the external `pandas.to_datetime(s, errors="coerce")`
on the app's fixed `"YYYY-MM-DD HH:MM"` timestamp format (source line 155):
a parsable timestamp maps to a chronologically ordered natural number,
anything else to `none` (NaT). -/
def parseDate (v : String) : Option Nat :=
  match v.toList with
  | [y1, y2, y3, y4, '-', o1, o2, '-', a1, a2, ' ', h1, h2, ':', i1, i2] =>
    if y1.isDigit ∧ y2.isDigit ∧ y3.isDigit ∧ y4.isDigit ∧ o1.isDigit ∧ o2.isDigit ∧
        a1.isDigit ∧ a2.isDigit ∧ h1.isDigit ∧ h2.isDigit ∧ i1.isDigit ∧ i2.isDigit then
      let y := ((d2n y1 * 10 + d2n y2) * 10 + d2n y3) * 10 + d2n y4
      let mo := d2n o1 * 10 + d2n o2
      let da := d2n a1 * 10 + d2n a2
      let h := d2n h1 * 10 + d2n h2
      let mi := d2n i1 * 10 + d2n i2
      if 1 ≤ mo ∧ mo ≤ 12 ∧ 1 ≤ da ∧ da ≤ 31 ∧ h ≤ 23 ∧ mi ≤ 59 then
        some ((((y * 100 + mo) * 100 + da) * 100 + h) * 100 + mi)
      else none
    else none
  | _ => none

/-- Value of an all-digit character list, `none` if empty or not all digits. -/
def digitsVal (l : List Char) : Option Nat :=
  if l ≠ [] ∧ l.all Char.isDigit then
    some (l.foldl (fun acc c => acc * 10 + d2n c) 0)
  else none

/-- Modelled behaviour of the external `pandas.to_numeric(s, errors="coerce")`
restricted to optionally signed integer literals (the app stores the 値 column
as text); anything unparsable maps to `none` (NaN). -/
def parseNum (v : String) : Option Int :=
  match v.toList with
  | '-' :: rest => (digitsVal rest).map (fun nv => -(nv : Int))
  | l => (digitsVal l).map (fun nv => (nv : Int))

/-- Positional lookup of the cell of column `c`: walk the header and the row
together (models `df[c]` for a row).  Missing column yields an empty text
cell (never reached on the app's tables). -/
def getCellByName : List String → Row → String → Cell
  | [], _, _ => .s ""
  | c2 :: cols, r, c => if c2 = c then r.headD (.s "") else getCellByName cols r.tail c

/-- String view of a cell: models `fillna("")` followed by reading the (text)
value; the app's table cells are always text cells. -/
def cellToStr : Cell → String
  | .s v => v
  | .d _ => ""
  | .n _ => ""

/-- Per-record comparison value for one sort key: the body of
`_mk_sort_columns` (source lines 173-180) applied to a single record.
`日時` parses as a date (NaT when unparsable), `値` parses as a number
(NaN when unparsable), every other column compares as text. -/
def recKey (cols : List String) (colname : String) (r : Row) : Cell :=
  let v := cellToStr (getCellByName cols r colname)
  if colname = "日時" then .d (parseDate v)
  else if colname = "値" then .n (parseNum v)
  else .s v

/-- `_mk_sort_columns` (source lines 173-180): the derived comparison column
for `colname`, one value per row. -/
def _mk_sort_columns (df : DF) (colname : String) : List Cell :=
  df.rows.map (recKey df.cols colname)

/-- Three-way comparison induced by a linear order. -/
def cmp3 {α : Type} [LinearOrder α] (a b : α) : Ordering :=
  if a < b then .lt else if b < a then .gt else .eq

/-- Comparison of optional values with `none` (NaN/NaT) placed last
regardless of direction: pandas `sort_values` uses `na_position="last"` by
default.  `asc = false` reverses the order of the present values only. -/
def cmpOpt {α : Type} [LinearOrder α] (asc : Bool) : Option α → Option α → Ordering
  | none, none => .eq
  | none, some _ => .gt
  | some _, none => .lt
  | some a, some b => if asc then cmp3 a b else cmp3 b a

/-- Rank used to order cells of distinct kinds; a derived sort column is
homogeneous, so this tie-breaker is never exercised by the app. -/
def cellRank : Cell → Nat
  | .d _ => 0
  | .n _ => 1
  | .s _ => 2

/-- Comparison of two cells of a derived sort column, honouring the
per-key direction; `none` values sort last (pandas `na_position` default). -/
def cmpCell (asc : Bool) : Cell → Cell → Ordering
  | .d a, .d b => cmpOpt asc a b
  | .n a, .n b => cmpOpt asc a b
  | .s a, .s b => if asc then cmp3 a b else cmp3 b a
  | x, y => cmp3 (cellRank x) (cellRank y)

/-- Lexicographic comparison of key tuples, one direction flag per key:
the comparison implemented by pandas for a multi-key `sort_values`. -/
def lexCmp : List Bool → List Cell → List Cell → Ordering
  | _, [], [] => .eq
  | _, [], _ :: _ => .lt
  | _, _ :: _, [] => .gt
  | ascs, x :: xs, y :: ys =>
    match cmpCell (ascs.headD true) x y with
    | .eq => lexCmp ascs.tail xs ys
    | o => o

/-- The key tuple of a row: the cells of the named (helper) columns. -/
def rowKeys (cols keys : List String) (r : Row) : List Cell :=
  keys.map (fun k => getCellByName cols r k)

/-- Row ordering used by `sort_values`: not-greater in the lexicographic
key comparison. -/
def rowLE (cols keys : List String) (ascs : List Bool) (r1 r2 : Row) : Prop :=
  lexCmp ascs (rowKeys cols keys r1) (rowKeys cols keys r2) ≠ Ordering.gt

instance (cols keys : List String) (ascs : List Bool) :
    DecidableRel (rowLE cols keys ascs) := fun r1 r2 =>
  inferInstanceAs (Decidable (lexCmp ascs (rowKeys cols keys r1) (rowKeys cols keys r2) ≠ Ordering.gt))

/-- Overwrite the cell of column `c` in a row. -/
def setCellByName : List String → Row → String → Cell → Row
  | [], r, _, _ => r
  | c2 :: cols, r, c, v =>
    if c2 = c then v :: r.tail
    else match r with
      | [] => []
      | x :: xs => x :: setCellByName cols xs c v

/-- Column assignment `out[name] = vals` of pandas: overwrite the column if
present, otherwise append it on the right. -/
def setCol (df : DF) (name : String) (vals : List Cell) : DF :=
  if df.cols.contains name then
    { cols := df.cols, rows := List.zipWith (fun r v => setCellByName df.cols r name v) df.rows vals }
  else
    { cols := df.cols ++ [name], rows := List.zipWith (fun r v => r ++ [v]) df.rows vals }

/-- `out.sort_values(by=keys, ascending=asc, kind="mergesort")` (source line
193): a stable sort of the rows by the named key columns.  Any stable sort
computes the same sequence; `List.insertionSort` is used as the stable
sorting algorithm. -/
def sortValues (df : DF) (keys : List String) (ascs : List Bool) : DF :=
  { cols := df.cols, rows := List.insertionSort (rowLE df.cols keys ascs) df.rows }

/-- Restriction of one row to the columns not being dropped. -/
def dropRow (cols ns : List String) (r : Row) : Row :=
  ((cols.zip r).filter (fun p => !(ns.contains p.1))).map Prod.snd

/-- `out.drop(columns=[c for c in ns if c in out.columns])` (source line
194). -/
def dropCols (df : DF) (ns : List String) : DF :=
  { cols := df.cols.filter (fun c => !(ns.contains c)),
    rows := df.rows.map (dropRow df.cols ns) }

/-- First half of `_apply_sort` (source lines 186-188): if `sort1` is truthy
(neither `None` nor the empty string) and an existing column, add the helper
column `_sort1` and register the key. -/
def addKey1 (df : DF) (sort1 : Option String) (asc1 : Bool) : DF × List (String × Bool) :=
  match sort1 with
  | some c =>
    if c ≠ "" ∧ c ∈ df.cols then
      (setCol df "_sort1" (_mk_sort_columns df c), [("_sort1", asc1)])
    else (df, [])
  | none => (df, [])

/-- Second half of `_apply_sort` (source lines 189-191): like `addKey1` for
`sort2`, additionally requiring `sort2 != sort1`; the membership test runs
against the columns of the intermediate frame. -/
def addKey2 (out1 : DF) (ks : List (String × Bool)) (sort1 sort2 : Option String)
    (asc2 : Bool) : DF × List (String × Bool) :=
  match sort2 with
  | some c =>
    if c ≠ "" ∧ c ∈ out1.cols ∧ some c ≠ sort1 then
      (setCol out1 "_sort2" (_mk_sort_columns out1 c), ks ++ [("_sort2", asc2)])
    else (out1, ks)
  | none => (out1, ks)

/-- `_apply_sort` (source lines 182-195): derive up to two helper sort
columns, stably sort by them when at least one key is active, then drop the
helper columns; with no active key the frame is returned unchanged. -/
def _apply_sort (df : DF) (sort1 : Option String) (asc1 : Bool)
    (sort2 : Option String) (asc2 : Bool) : DF :=
  let p1 := addKey1 df sort1 asc1
  let p2 := addKey2 p1.1 p1.2 sort1 sort2 asc2
  if p2.2.isEmpty then p2.1
  else dropCols (sortValues p2.1 (p2.2.map Prod.fst) (p2.2.map Prod.snd)) ["_sort1", "_sort2"]

/-! ### Editor and save path -/

/-- A displayed/edited row together with its pandas index label.  The label
of a row is the positional index the row had in the working table when the
view was built (`sort_values` permutes rows but keeps their labels).
Modelled from the spec for the external editor widget: rows added in the
editor receive fresh labels larger than every existing label. -/
abbrev Entry := Nat × Row

/-- Index-label order on labelled rows. -/
def entryLE (a b : Entry) : Prop := a.1 ≤ b.1

instance : DecidableRel entryLE := fun a b => Nat.decLe a.1 b.1

instance : IsTotal Entry entryLE := ⟨fun a b => Nat.le_total a.1 b.1⟩

instance : IsTrans Entry entryLE := ⟨fun _ _ _ h1 h2 => Nat.le_trans h1 h2⟩

/-- `edited_df.sort_index()` (source line 271): rearrange the rows into
ascending index-label order (labels are distinct, so this is the unique
sorted arrangement; computed here with a stable sort). -/
def sort_index (l : List Entry) : List Entry :=
  List.insertionSort entryLE l

/-- The reconciliation applied by `save_edits` (source lines 265-271): with
`save_in_sorted_order` the edited frame is taken as-is, otherwise it is
re-ordered to its original positional index via `sort_index`. -/
def reconcile (persist : Bool) (edited : List Entry) : List Entry :=
  if persist then edited else sort_index edited

/-! ### Remote synchronisation paths -/

/-- The record built by `submitted_create` (source lines 155-157). -/
def mkNewRow (now cat item val unit note : String) : Row :=
  [.s now, .s cat, .s item, .s val, .s unit, .s note]

/-- `submitted_create` (source lines 154-170): prepend the new record to the
working copy, then attempt the remote insert.  `wsConnected` models
`worksheet` being non-`None` and `insertOk` the external call outcome.  Result:
(working table, last-saved snapshot, error reported?). -/
def submitted_create_step (df last_saved : List Row) (wsConnected insertOk : Bool)
    (now cat item val unit note : String) : List Row × List Row × Bool :=
  let df2 := mkNewRow now cat item val unit note :: df
  if wsConnected then
    if insertOk then (df2, df2, false) else (df2, last_saved, true)
  else (df2, last_saved, true)

/-- `save_edits` (source lines 265-283): store the reconciled table in the
working copy, then attempt the remote overwrite.  Result: (working table,
last-saved snapshot, error reported?). -/
def save_edits_step (edited : List Entry) (persist : Bool) (last_saved : List Entry)
    (wsConnected writeOk : Bool) : List Entry × List Entry × Bool :=
  let df2 := reconcile persist edited
  if wsConnected then
    if writeOk then (df2, df2, false) else (df2, last_saved, true)
  else (df2, last_saved, true)

/-- `fetch_sheet_df` (source lines 111-131): with no client, or when the
remote read raises, the result is an empty frame with the managed header;
otherwise records are padded with empty strings for missing columns and
restricted to the managed header in its order. -/
def fetch_sheet_df (gcConnected : Bool)
    (remote : Except String (List (List (String × String)))) : DF :=
  if gcConnected then
    match remote with
    | .error _ => { cols := COLUMNS, rows := [] }
    | .ok recs =>
      if recs.isEmpty then { cols := COLUMNS, rows := [] }
      else
        { cols := COLUMNS,
          rows := recs.map (fun rec => COLUMNS.map (fun c => Cell.s ((rec.lookup c).getD ""))) }
  else { cols := COLUMNS, rows := [] }

/-- Session initialisation (source lines 133-142): the working table starts
as the fetched frame, or an empty frame with the managed header when there
is no client. -/
def init_working_table (gcConnected : Bool)
    (remote : Except String (List (List (String × String)))) : DF :=
  if gcConnected then fetch_sheet_df gcConnected remote
  else { cols := COLUMNS, rows := [] }

/-! ### Properties of the key comparisons -/

theorem cmp3_lt_iff {α : Type} [LinearOrder α] (a b : α) : cmp3 a b = .lt ↔ a < b := by
  unfold cmp3
  split
  · simp [*]
  · split <;> simp [*]

theorem cmp3_gt_iff {α : Type} [LinearOrder α] (a b : α) : cmp3 a b = .gt ↔ b < a := by
  unfold cmp3
  split
  · rename_i h
    simp [lt_asymm h]
  · split <;> simp [*]

theorem cmp3_eq_iff {α : Type} [LinearOrder α] (a b : α) : cmp3 a b = .eq ↔ a = b := by
  unfold cmp3
  split
  · rename_i h
    simp [ne_of_lt h]
  · split
    · rename_i h
      simp [(ne_of_lt h).symm]
    · rename_i h1 h2
      simp [le_antisymm (le_of_not_lt h2) (le_of_not_lt h1)]

theorem cmp3_swap {α : Type} [LinearOrder α] (a b : α) : (cmp3 a b).swap = cmp3 b a := by
  rcases lt_trichotomy a b with h | h | h
  · rw [(cmp3_lt_iff a b).mpr h, (cmp3_gt_iff b a).mpr h]
    rfl
  · rw [(cmp3_eq_iff a b).mpr h, (cmp3_eq_iff b a).mpr h.symm]
    rfl
  · rw [(cmp3_gt_iff a b).mpr h, (cmp3_lt_iff b a).mpr h]
    rfl

theorem cmp3_lt_trans {α : Type} [LinearOrder α] {a b c : α}
    (h1 : cmp3 a b = .lt) (h2 : cmp3 b c = .lt) : cmp3 a c = .lt := by
  rw [cmp3_lt_iff] at h1 h2 ⊢
  exact lt_trans h1 h2

theorem cmpOpt_eq_iff {α : Type} [LinearOrder α] (asc : Bool) (x y : Option α) :
    cmpOpt asc x y = .eq ↔ x = y := by
  cases asc <;> rcases x with _ | a <;> rcases y with _ | b <;> simp [cmpOpt]
  · rw [cmp3_eq_iff]
    exact eq_comm
  · rw [cmp3_eq_iff]

theorem cmpOpt_swap {α : Type} [LinearOrder α] (asc : Bool) (x y : Option α) :
    (cmpOpt asc x y).swap = cmpOpt asc y x := by
  rcases x with _ | a <;> rcases y with _ | b <;> simp [cmpOpt] <;> try rfl
  cases asc <;> simp [cmp3_swap]

theorem cmpOpt_lt_trans {α : Type} [LinearOrder α] {asc : Bool} {x y z : Option α}
    (h1 : cmpOpt asc x y = .lt) (h2 : cmpOpt asc y z = .lt) : cmpOpt asc x z = .lt := by
  rcases x with _ | a <;> rcases y with _ | b <;> rcases z with _ | c <;>
    simp [cmpOpt] at h1 h2 ⊢
  cases asc <;> simp at h1 h2 ⊢ <;> rw [cmp3_lt_iff] at h1 h2 ⊢
  · exact lt_trans h2 h1
  · exact lt_trans h1 h2

theorem cmpCell_eq_iff (asc : Bool) (x y : Cell) : cmpCell asc x y = .eq ↔ x = y := by
  rcases x with a | a | a <;> rcases y with b | b | b <;>
    simp [cmpCell, cellRank, cmp3_eq_iff, cmpOpt_eq_iff]
  cases asc <;> simp [cmp3_eq_iff, eq_comm]

theorem cmpCell_swap (asc : Bool) (x y : Cell) : (cmpCell asc x y).swap = cmpCell asc y x := by
  rcases x with a | a | a <;> rcases y with b | b | b <;>
    simp [cmpCell, cellRank, cmp3_swap, cmpOpt_swap]
  cases asc <;> simp [cmp3_swap]

theorem cmpCell_lt_trans {asc : Bool} {x y z : Cell}
    (h1 : cmpCell asc x y = .lt) (h2 : cmpCell asc y z = .lt) : cmpCell asc x z = .lt := by
  rcases x with a | a | a <;> rcases y with b | b | b <;> rcases z with c | c | c <;>
    simp only [cmpCell, cellRank] at h1 h2 ⊢ <;>
    first
      | rfl
      | exact absurd h1 (by decide)
      | exact absurd h2 (by decide)
      | exact cmpOpt_lt_trans h1 h2
      | (cases asc <;> simp only [Bool.false_eq_true, if_true, if_false, ite_true, ite_false,
          if_neg, reduceIte] at h1 h2 ⊢ <;>
          [exact cmp3_lt_trans h2 h1; exact cmp3_lt_trans h1 h2])

theorem lexCmp_refl (ascs : List Bool) (ks : List Cell) : lexCmp ascs ks ks = .eq := by
  induction ks generalizing ascs with
  | nil => rfl
  | cons k t ih =>
    simp only [lexCmp]
    rw [(cmpCell_eq_iff (ascs.headD true) k k).mpr rfl]
    exact ih ascs.tail

theorem lexCmp_swap (ascs : List Bool) (xs ys : List Cell) :
    (lexCmp ascs xs ys).swap = lexCmp ascs ys xs := by
  induction xs generalizing ascs ys with
  | nil => rcases ys with _ | ⟨y, ys⟩ <;> rfl
  | cons x xs ih =>
    rcases ys with _ | ⟨y, ys⟩
    · rfl
    · simp only [lexCmp]
      have hs := cmpCell_swap (ascs.headD true) x y
      rcases h : cmpCell (ascs.headD true) x y with _ | _ | _ <;> rw [h] at hs <;> rw [← hs]
      · rfl
      · show (lexCmp ascs.tail xs ys).swap = lexCmp ascs.tail ys xs
        exact ih ascs.tail ys
      · rfl

theorem lexCmp_le_trans {ascs : List Bool} {xs ys zs : List Cell}
    (h1 : lexCmp ascs xs ys ≠ .gt) (h2 : lexCmp ascs ys zs ≠ .gt) :
    lexCmp ascs xs zs ≠ .gt := by
  induction xs generalizing ascs ys zs with
  | nil =>
    rcases zs with _ | ⟨z, zs⟩
    · rcases ys with _ | ⟨y, ys⟩
      · exact h1
      · simp [lexCmp] at h2
    · simp [lexCmp]
  | cons x xs ih =>
    rcases ys with _ | ⟨y, ys⟩
    · simp [lexCmp] at h1
    · rcases zs with _ | ⟨z, zs⟩
      · simp [lexCmp] at h2
      · simp only [lexCmp] at h1 h2 ⊢
        rcases hxy : cmpCell (ascs.headD true) x y with _ | _ | _ <;>
          rcases hyz : cmpCell (ascs.headD true) y z with _ | _ | _ <;>
          rw [hxy] at h1 <;> rw [hyz] at h2
        · rw [cmpCell_lt_trans hxy hyz]
          simp
        · have h3 := (cmpCell_eq_iff _ y z).mp hyz
          subst h3
          rw [hxy]
          simp
        · exact absurd rfl h2
        · have h3 := (cmpCell_eq_iff _ x y).mp hxy
          subst h3
          rw [hyz]
          simp
        · have h3 := (cmpCell_eq_iff _ x y).mp hxy
          subst h3
          rw [hyz]
          exact ih h1 h2
        · exact absurd rfl h2
        · exact absurd rfl h1
        · exact absurd rfl h1
        · exact absurd rfl h1

theorem rowLE_total (cols keys : List String) (ascs : List Bool) (r1 r2 : Row) :
    rowLE cols keys ascs r1 r2 ∨ rowLE cols keys ascs r2 r1 := by
  unfold rowLE
  by_cases h : lexCmp ascs (rowKeys cols keys r1) (rowKeys cols keys r2) = .gt
  · right
    rw [← lexCmp_swap, h]
    simp [Ordering.swap]
  · left
    exact h

instance (cols keys : List String) (ascs : List Bool) : IsTotal Row (rowLE cols keys ascs) :=
  ⟨rowLE_total cols keys ascs⟩

instance (cols keys : List String) (ascs : List Bool) : IsTrans Row (rowLE cols keys ascs) :=
  ⟨fun _ _ _ h1 h2 => lexCmp_le_trans h1 h2⟩

/-! ### Structure of the decorated frames -/

theorem zipWith_append_self (l : List Row) (g : Row → Cell) :
    List.zipWith (fun r v => r ++ [v]) l (l.map g) = l.map (fun r => r ++ [g r]) := by
  rw [List.zipWith_map_right, List.zipWith_same]

theorem dropRow_append (C H ns : List String) (r e : Row)
    (hC : ∀ c ∈ C, ns.contains c = false) (hH : ∀ c ∈ H, ns.contains c = true)
    (hlen : r.length = C.length) :
    dropRow (C ++ H) ns (r ++ e) = r := by
  induction C generalizing r with
  | nil =>
    have hr : r = [] := List.length_eq_zero.mp hlen
    subst hr
    show ((H.zip e).filter (fun p => !(ns.contains p.1))).map Prod.snd = []
    have hz : (H.zip e).filter (fun p => !(ns.contains p.1)) = [] := by
      rw [List.filter_eq_nil_iff]
      intro p hp
      have hp1 : p.1 ∈ H := (List.of_mem_zip hp).1
      simpa using hH p.1 hp1
    rw [hz]
    rfl
  | cons c C ih =>
    rcases r with _ | ⟨x, r⟩
    · exact absurd hlen (by simp)
    · have hkeep : ns.contains c = false := hC c (List.mem_cons_self c C)
      show (((c :: (C ++ H)).zip ((x :: r) ++ e)).filter (fun p => !(ns.contains p.1))).map
          Prod.snd = x :: r
      rw [List.cons_append, List.zip_cons_cons, List.filter_cons]
      simp only [hkeep, Bool.not_false, if_true]
      rw [List.map_cons]
      congr 1
      exact ih r (fun c2 hc2 => hC c2 (List.mem_cons_of_mem c hc2)) (by simpa using hlen)

theorem getCellByName_append_left (C H : List String) (r e : Row) (c : String)
    (hc : c ∈ C) (hlen : r.length = C.length) :
    getCellByName (C ++ H) (r ++ e) c = getCellByName C r c := by
  induction C generalizing r with
  | nil => simp at hc
  | cons c2 C ih =>
    rcases r with _ | ⟨x, r⟩
    · exact absurd hlen (by simp)
    · by_cases h : c2 = c
      · simp [getCellByName, h]
      · have hc2 : c ∈ C := by
          rcases List.mem_cons.mp hc with h3 | h3
          · exact absurd h3.symm h
          · exact h3
        simp only [List.cons_append, getCellByName, if_neg h, List.tail_cons]
        exact ih r hc2 (by simpa using hlen)

theorem getCellByName_append_right (C D : List String) (r e : Row) (c : String)
    (hc : c ∉ C) (hlen : r.length = C.length) :
    getCellByName (C ++ D) (r ++ e) c = getCellByName D e c := by
  induction C generalizing r with
  | nil =>
    have hr : r = [] := List.length_eq_zero.mp hlen
    subst hr
    rfl
  | cons c2 C ih =>
    rcases r with _ | ⟨x, r⟩
    · exact absurd hlen (by simp)
    · have h : c2 ≠ c := fun h => hc (h ▸ List.mem_cons_self c2 C)
      simp only [List.cons_append, getCellByName, if_neg h, List.tail_cons]
      exact ih r (fun h2 => hc (List.mem_cons_of_mem _ h2)) (by simpa using hlen)

theorem recKey_append (H : List String) (c : String) (r e : Row)
    (hc : c ∈ COLUMNS) (hlen : r.length = COLUMNS.length) :
    recKey (COLUMNS ++ H) c (r ++ e) = recKey COLUMNS c r := by
  unfold recKey
  rw [getCellByName_append_left COLUMNS H r e c hc hlen]

/-! ### The decorate / stable-sort / strip pipeline -/

theorem pipeline_perm (l : List Row) (g : Row → List Cell) (H : List String) (ascs : List Bool)
    (hlen : ∀ r ∈ l, r.length = COLUMNS.length)
    (hH : ∀ c ∈ H, (["_sort1", "_sort2"] : List String).contains c = true) :
    ((List.insertionSort (rowLE (COLUMNS ++ H) H ascs) (l.map (fun r => r ++ g r))).map
      (dropRow (COLUMNS ++ H) ["_sort1", "_sort2"])).Perm l := by
  have hperm := List.perm_insertionSort (rowLE (COLUMNS ++ H) H ascs) (l.map (fun r => r ++ g r))
  refine (hperm.map (dropRow (COLUMNS ++ H) ["_sort1", "_sort2"])).trans ?_
  rw [List.map_map]
  have h3 : ∀ r ∈ l, (dropRow (COLUMNS ++ H) ["_sort1", "_sort2"] ∘ fun r => r ++ g r) r = id r :=
    fun r hr => dropRow_append COLUMNS H ["_sort1", "_sort2"] r (g r) (by decide) hH (hlen r hr)
  rw [List.map_congr_left h3, List.map_id]

theorem pipeline_pair (l : List Row) (g : Row → List Cell) (H : List String) (ascs : List Bool)
    (r1 r2 : Row) (hsub : [r1, r2] <+ l)
    (hlen : ∀ r ∈ l, r.length = COLUMNS.length)
    (hH : ∀ c ∈ H, (["_sort1", "_sort2"] : List String).contains c = true)
    (hle : rowLE (COLUMNS ++ H) H ascs (r1 ++ g r1) (r2 ++ g r2)) :
    [r1, r2] <+ (List.insertionSort (rowLE (COLUMNS ++ H) H ascs) (l.map (fun r => r ++ g r))).map
      (dropRow (COLUMNS ++ H) ["_sort1", "_sort2"]) := by
  have hs2 : [r1 ++ g r1, r2 ++ g r2] <+ l.map (fun r => r ++ g r) := by
    simpa using hsub.map (fun r => r ++ g r)
  have hs4 := (List.pair_sublist_insertionSort hle hs2).map
    (dropRow (COLUMNS ++ H) ["_sort1", "_sort2"])
  have e1 : dropRow (COLUMNS ++ H) ["_sort1", "_sort2"] (r1 ++ g r1) = r1 :=
    dropRow_append COLUMNS H _ r1 (g r1) (by decide) hH (hlen r1 (hsub.subset (by simp)))
  have e2 : dropRow (COLUMNS ++ H) ["_sort1", "_sort2"] (r2 ++ g r2) = r2 :=
    dropRow_append COLUMNS H _ r2 (g r2) (by decide) hH (hlen r2 (hsub.subset (by simp)))
  simpa [e1, e2] using hs4

theorem setCol_decorate (df : DF) (name : String) (c : String)
    (hns : df.cols.contains name = false) :
    setCol df name (_mk_sort_columns df c) =
      DF.mk (df.cols ++ [name]) (df.rows.map (fun r => r ++ [recKey df.cols c r])) := by
  unfold setCol
  rw [if_neg (by simp only [hns]; simp)]
  unfold _mk_sort_columns
  rw [zipWith_append_self]

theorem addKey1_active (df : DF) (c : String) (a1 : Bool) (hcols : df.cols = COLUMNS)
    (hc : c ≠ "" ∧ c ∈ df.cols) :
    addKey1 df (some c) a1 =
      (DF.mk (COLUMNS ++ ["_sort1"]) (df.rows.map (fun r => r ++ [recKey COLUMNS c r])),
        [("_sort1", a1)]) := by
  simp only [addKey1]
  rw [if_pos hc, setCol_decorate df "_sort1" c (by rw [hcols]; decide), hcols]

theorem addKey1_inactive (df : DF) (c : String) (a1 : Bool)
    (hc : ¬(c ≠ "" ∧ c ∈ df.cols)) : addKey1 df (some c) a1 = (df, []) := by
  simp only [addKey1]
  rw [if_neg hc]

theorem addKey2_inactive (out1 : DF) (ks : List (String × Bool)) (s1 : Option String)
    (c : String) (a2 : Bool) (hc : ¬(c ≠ "" ∧ c ∈ out1.cols ∧ some c ≠ s1)) :
    addKey2 out1 ks s1 (some c) a2 = (out1, ks) := by
  simp only [addKey2]
  rw [if_neg hc]

theorem apply_sort_eq0 (df : DF) (s1 s2 : Option String) (a1 a2 : Bool)
    (h1 : addKey1 df s1 a1 = (df, []))
    (h2 : addKey2 df [] s1 s2 a2 = (df, [])) :
    _apply_sort df s1 a1 s2 a2 = df := by
  simp only [_apply_sort, h1]
  rw [h2]
  rfl

theorem apply_sort_eq1 (df : DF) (c : String) (a1 : Bool) (s2 : Option String) (a2 : Bool)
    (hcols : df.cols = COLUMNS) (hc : c ≠ "" ∧ c ∈ df.cols)
    (h2 : ∀ c2, s2 = some c2 → ¬(c2 ≠ "" ∧ c2 ∈ COLUMNS ++ ["_sort1"] ∧ some c2 ≠ some c)) :
    _apply_sort df (some c) a1 s2 a2 =
      dropCols (sortValues
        (DF.mk (COLUMNS ++ ["_sort1"]) (df.rows.map (fun r => r ++ [recKey COLUMNS c r])))
        ["_sort1"] [a1]) ["_sort1", "_sort2"] := by
  simp only [_apply_sort, addKey1_active df c a1 hcols hc]
  rcases s2 with _ | c2
  · rfl
  · rw [addKey2_inactive _ _ _ _ _ (h2 c2 rfl)]
    rfl

theorem apply_sort_eq2 (df : DF) (s1 : Option String) (c2 : String) (a1 a2 : Bool)
    (hcols : df.cols = COLUMNS)
    (h1 : addKey1 df s1 a1 = (df, []))
    (hc2 : c2 ≠ "" ∧ c2 ∈ df.cols ∧ some c2 ≠ s1) :
    _apply_sort df s1 a1 (some c2) a2 =
      dropCols (sortValues
        (DF.mk (COLUMNS ++ ["_sort2"]) (df.rows.map (fun r => r ++ [recKey COLUMNS c2 r])))
        ["_sort2"] [a2]) ["_sort1", "_sort2"] := by
  simp only [_apply_sort, h1, addKey2]
  rw [if_pos hc2, setCol_decorate df "_sort2" c2 (by rw [hcols]; decide), hcols]
  rfl

theorem apply_sort_eq3 (df : DF) (c1 c2 : String) (a1 a2 : Bool)
    (hcols : df.cols = COLUMNS) (hc1 : c1 ≠ "" ∧ c1 ∈ df.cols)
    (hc2 : c2 ≠ "" ∧ c2 ∈ COLUMNS ++ ["_sort1"] ∧ some c2 ≠ some c1) :
    _apply_sort df (some c1) a1 (some c2) a2 =
      dropCols (sortValues
        (DF.mk (COLUMNS ++ ["_sort1", "_sort2"])
          (df.rows.map (fun r => r ++ [recKey COLUMNS c1 r,
            recKey (COLUMNS ++ ["_sort1"]) c2 (r ++ [recKey COLUMNS c1 r])])))
        ["_sort1", "_sort2"] [a1, a2]) ["_sort1", "_sort2"] := by
  have hd := setCol_decorate
    (DF.mk (COLUMNS ++ ["_sort1"]) (df.rows.map (fun r => r ++ [recKey COLUMNS c1 r])))
    "_sort2" c2 (by show (COLUMNS ++ ["_sort1"]).contains "_sort2" = false; decide)
  have hrows : (df.rows.map (fun r => r ++ [recKey COLUMNS c1 r])).map
      (fun r => r ++ [recKey (COLUMNS ++ ["_sort1"]) c2 r]) =
      df.rows.map (fun r => r ++ [recKey COLUMNS c1 r,
        recKey (COLUMNS ++ ["_sort1"]) c2 (r ++ [recKey COLUMNS c1 r])]) := by
    rw [List.map_map]
    apply List.map_congr_left
    intro r _
    show (r ++ [recKey COLUMNS c1 r]) ++ [recKey (COLUMNS ++ ["_sort1"]) c2
      (r ++ [recKey COLUMNS c1 r])] = _
    rw [List.append_assoc]
    rfl
  simp only [_apply_sort, addKey1_active df c1 a1 hcols hc1, addKey2]
  rw [if_pos hc2, hd]
  show dropCols (sortValues (DF.mk (COLUMNS ++ ["_sort1", "_sort2"])
      ((df.rows.map (fun r => r ++ [recKey COLUMNS c1 r])).map
        (fun r => r ++ [recKey (COLUMNS ++ ["_sort1"]) c2 r])))
      ["_sort1", "_sort2"] [a1, a2]) ["_sort1", "_sort2"] = _
  rw [hrows]

/-! ### Key extraction from decorated rows -/

theorem rowKeys_single (name : String) (hname : name ∉ COLUMNS) (r : Row) (k : Cell)
    (hlen : r.length = COLUMNS.length) :
    rowKeys (COLUMNS ++ [name]) [name] (r ++ [k]) = [k] := by
  unfold rowKeys
  simp only [List.map_cons, List.map_nil]
  rw [getCellByName_append_right COLUMNS [name] r [k] name hname hlen]
  simp [getCellByName]

theorem rowKeys_pair (r : Row) (k1 k2 : Cell) (hlen : r.length = COLUMNS.length) :
    rowKeys (COLUMNS ++ ["_sort1", "_sort2"]) ["_sort1", "_sort2"] (r ++ [k1, k2]) = [k1, k2] := by
  unfold rowKeys
  simp only [List.map_cons, List.map_nil]
  rw [getCellByName_append_right COLUMNS _ r [k1, k2] "_sort1" (by decide) hlen,
    getCellByName_append_right COLUMNS _ r [k1, k2] "_sort2" (by decide) hlen]
  simp [getCellByName]

/-! ### Claims about the reconciliation and remote paths -/

theorem sorted_filter_split (N : Nat) (l : List Entry)
    (h : l.Pairwise (fun a b => a.1 ≤ b.1)) :
    (l.filter (fun e => decide (e.1 < N))) ++ (l.filter (fun e => decide (N ≤ e.1))) = l := by
  induction l with
  | nil => rfl
  | cons a t ih =>
    rw [List.pairwise_cons] at h
    by_cases ha : a.1 < N
    · rw [List.filter_cons_of_pos (by simpa using ha),
        List.filter_cons_of_neg (by simpa using Nat.not_le.mpr ha),
        List.cons_append, ih h.2]
    · have haN : N ≤ a.1 := Nat.le_of_not_lt ha
      have h1 : t.filter (fun e => decide (e.1 < N)) = [] := by
        rw [List.filter_eq_nil_iff]
        intro b hb
        have hab := h.1 b hb
        simp
        omega
      rw [List.filter_cons_of_neg (by simpa using ha),
        List.filter_cons_of_pos (by simpa using haN), h1, List.nil_append]
      congr 1
      rw [List.filter_eq_self]
      intro b hb
      have hab := h.1 b hb
      simp
      omega

/-- Claim C9: with neither a primary nor a secondary sort key set, `_apply_sort`
returns the table unchanged: the input order is preserved. -/
theorem c9_sort_identity (df : DF) (a1 a2 : Bool) : _apply_sort df none a1 none a2 = df := rfl

/-- Claim C8: when `save_in_sorted_order` (persistDisplayOrderOnSave) is true,
`save_edits` stores exactly the edited sequence, in the edited sequence's own
order (any reordering, insertion or deletion the user performed included). -/
theorem c8_persist_display_order (edited : List Entry) : reconcile true edited = edited := rfl

/-- Claim C4: when `save_in_sorted_order` is false, `save_edits` stores the
edited rows re-ordered by their original positional index label: the result is
a permutation of the edited rows arranged in ascending label order, so rows
with known prior positions keep their original relative order and rows with
labels at least `N` (the fresh labels given to newly added rows) form the
final segment, after every row whose label is a prior position below `N`. -/
theorem c4_restore_original_order (edited : List Entry) (N : Nat) :
    (reconcile false edited).Perm edited ∧
    (reconcile false edited).Pairwise (fun a b => a.1 ≤ b.1) ∧
    ((reconcile false edited).filter (fun e => decide (e.1 < N))) ++
      ((reconcile false edited).filter (fun e => decide (N ≤ e.1))) =
      reconcile false edited := by
  have hs : (reconcile false edited).Pairwise (fun a b => a.1 ≤ b.1) :=
    List.sorted_insertionSort entryLE edited
  exact ⟨List.perm_insertionSort entryLE edited, hs, sorted_filter_split N _ hs⟩

/-- Claim C3: the timestamp column is not editable (the editor accepts only
edited sequences whose pre-existing rows keep their displayed 日時 cell), and
reconciliation forwards edited rows verbatim — in particular the timestamp
cell of every pre-existing row of the new working table equals that row's
displayed timestamp, never a recomputed value. -/
theorem c3_timestamp_preserved (persist : Bool) (displayed edited : List Entry)
    (hacc : ∀ i r, (i, r) ∈ edited → ∀ s, (i, s) ∈ displayed →
      getCellByName COLUMNS r "日時" = getCellByName COLUMNS s "日時") :
    (∀ e, e ∈ reconcile persist edited → e ∈ edited) ∧
    (∀ i r, (i, r) ∈ reconcile persist edited → ∀ s, (i, s) ∈ displayed →
      getCellByName COLUMNS r "日時" = getCellByName COLUMNS s "日時") := by
  have hmem : ∀ e, e ∈ reconcile persist edited → e ∈ edited := by
    intro e he
    unfold reconcile at he
    split at he
    · exact he
    · unfold sort_index at he
      exact (List.mem_insertionSort entryLE).mp he
  exact ⟨hmem, fun i r hir s hs => hacc i r (hmem (i, r) hir) s hs⟩

def wRow : Row := [.s "2024-01-01 10:00", .s "A", .s "x", .s "5", .s "kg", .s ""]

theorem c3_witness :
    (∀ e, e ∈ reconcile false [(0, wRow)] → e ∈ [(0, wRow)]) ∧
    (∀ i r, (i, r) ∈ reconcile false [(0, wRow)] → ∀ s, (i, s) ∈ [(0, wRow)] →
      getCellByName COLUMNS r "日時" = getCellByName COLUMNS s "日時") :=
  c3_timestamp_preserved false [(0, wRow)] [(0, wRow)] (by
    intro i r hr s hs
    simp only [List.mem_singleton, Prod.mk.injEq] at hr hs
    rw [hr.2, hs.2])

/-- Claim C6: a remote-write failure (no worksheet handle, or a failing
insert/overwrite call) is reported as an error, while the in-memory working
table keeps the attempted change — the freshly prepended record, respectively
the reconciled edited table — and is never reverted or otherwise mutated by
the failure. -/
theorem c6_remote_failure_keeps_local (df last_saved : List Row) (ws ok : Bool)
    (now cat item val unit note : String) (edited : List Entry) (persist : Bool)
    (ls2 : List Entry) (hfail : ws = false ∨ ok = false) :
    ((submitted_create_step df last_saved ws ok now cat item val unit note).1 =
        mkNewRow now cat item val unit note :: df ∧
      (submitted_create_step df last_saved ws ok now cat item val unit note).2.2 = true) ∧
    ((save_edits_step edited persist ls2 ws ok).1 = reconcile persist edited ∧
      (save_edits_step edited persist ls2 ws ok).2.2 = true) := by
  unfold submitted_create_step save_edits_step
  rcases hfail with h | h <;> subst h
  · simp
  · cases ws <;> simp

theorem c6_witness :
    ((submitted_create_step [] [] true false "2024-01-01 10:00" "c" "i" "5" "kg" "n").1 =
        mkNewRow "2024-01-01 10:00" "c" "i" "5" "kg" "n" :: [] ∧
      (submitted_create_step [] [] true false "2024-01-01 10:00" "c" "i" "5" "kg" "n").2.2 =
        true) ∧
    ((save_edits_step [(0, wRow)] true [] true false).1 = reconcile true [(0, wRow)] ∧
      (save_edits_step [(0, wRow)] true [] true false).2.2 = true) :=
  c6_remote_failure_keeps_local [] [] true false "2024-01-01 10:00" "c" "i" "5" "kg" "n"
    [(0, wRow)] true [] (Or.inr rfl)

/-- Claim C7: with the remote store unreachable (no client) or a failing
remote read, the working table initialises to the empty frame carrying
exactly the schema's columns in schema order — zero rows, correct headers —
and the fallback value is produced by the failure branches themselves, so no
exception escapes. -/
theorem c7_init_empty_on_failure (remote : Except String (List (List (String × String))))
    (msg : String) :
    init_working_table false remote = DF.mk COLUMNS [] ∧
    init_working_table true (Except.error msg) = DF.mk COLUMNS [] ∧
    fetch_sheet_df false remote = DF.mk COLUMNS [] ∧
    fetch_sheet_df true (Except.error msg) = DF.mk COLUMNS [] :=
  ⟨rfl, rfl, rfl, rfl⟩

/-! ### Claims about the sort engine -/

theorem mem_COLUMNS_ne_empty : ∀ c ∈ COLUMNS, c ≠ "" := by decide

/-- Claim C10: for every table over the managed schema and any sort settings,
`_apply_sort` returns a permutation of the input rows (no record dropped,
duplicated or altered) and carries exactly the input's columns — the helper
sort columns are dropped again. -/
theorem c10_sort_permutation (df : DF) (s1 : Option String) (a1 : Bool) (s2 : Option String)
    (a2 : Bool) (hcols : df.cols = COLUMNS)
    (hrect : ∀ r ∈ df.rows, r.length = COLUMNS.length) :
    ((_apply_sort df s1 a1 s2 a2).rows).Perm df.rows ∧
    (_apply_sort df s1 a1 s2 a2).cols = df.cols := by
  rcases s1 with _ | c1
  · rcases s2 with _ | c2
    · rw [apply_sort_eq0 df none none a1 a2 rfl rfl]
      exact ⟨List.Perm.refl _, rfl⟩
    · by_cases hc2 : c2 ≠ "" ∧ c2 ∈ df.cols ∧ some c2 ≠ none
      · rw [apply_sort_eq2 df none c2 a1 a2 hcols rfl hc2]
        constructor
        · exact pipeline_perm df.rows (fun r => [recKey COLUMNS c2 r]) ["_sort2"] [a2]
            hrect (by decide)
        · rw [hcols]
          show (COLUMNS ++ ["_sort2"]).filter
            (fun c => !((["_sort1", "_sort2"] : List String).contains c)) = COLUMNS
          decide
      · rw [apply_sort_eq0 df none (some c2) a1 a2 rfl (addKey2_inactive df [] none c2 a2 hc2)]
        exact ⟨List.Perm.refl _, rfl⟩
  · by_cases hc1 : c1 ≠ "" ∧ c1 ∈ df.cols
    · rcases s2 with _ | c2
      · rw [apply_sort_eq1 df c1 a1 none a2 hcols hc1 (fun c2 h => by cases h)]
        constructor
        · exact pipeline_perm df.rows (fun r => [recKey COLUMNS c1 r]) ["_sort1"] [a1]
            hrect (by decide)
        · rw [hcols]
          show (COLUMNS ++ ["_sort1"]).filter
            (fun c => !((["_sort1", "_sort2"] : List String).contains c)) = COLUMNS
          decide
      · by_cases hc2 : c2 ≠ "" ∧ c2 ∈ COLUMNS ++ ["_sort1"] ∧ some c2 ≠ some c1
        · rw [apply_sort_eq3 df c1 c2 a1 a2 hcols hc1 hc2]
          constructor
          · exact pipeline_perm df.rows
              (fun r => [recKey COLUMNS c1 r,
                recKey (COLUMNS ++ ["_sort1"]) c2 (r ++ [recKey COLUMNS c1 r])])
              ["_sort1", "_sort2"] [a1, a2] hrect (by decide)
          · rw [hcols]
            show (COLUMNS ++ ["_sort1", "_sort2"]).filter
              (fun c => !((["_sort1", "_sort2"] : List String).contains c)) = COLUMNS
            decide
        · rw [apply_sort_eq1 df c1 a1 (some c2) a2 hcols hc1
            (fun c h => by injection h with h3; subst h3; exact hc2)]
          constructor
          · exact pipeline_perm df.rows (fun r => [recKey COLUMNS c1 r]) ["_sort1"] [a1]
              hrect (by decide)
          · rw [hcols]
            show (COLUMNS ++ ["_sort1"]).filter
              (fun c => !((["_sort1", "_sort2"] : List String).contains c)) = COLUMNS
            decide
    · have h1 : addKey1 df (some c1) a1 = (df, []) := addKey1_inactive df c1 a1 hc1
      rcases s2 with _ | c2
      · rw [apply_sort_eq0 df (some c1) none a1 a2 h1 rfl]
        exact ⟨List.Perm.refl _, rfl⟩
      · by_cases hc2 : c2 ≠ "" ∧ c2 ∈ df.cols ∧ some c2 ≠ some c1
        · rw [apply_sort_eq2 df (some c1) c2 a1 a2 hcols h1 hc2]
          constructor
          · exact pipeline_perm df.rows (fun r => [recKey COLUMNS c2 r]) ["_sort2"] [a2]
              hrect (by decide)
          · rw [hcols]
            show (COLUMNS ++ ["_sort2"]).filter
              (fun c => !((["_sort1", "_sort2"] : List String).contains c)) = COLUMNS
            decide
        · rw [apply_sort_eq0 df (some c1) (some c2) a1 a2 h1
            (addKey2_inactive df [] (some c1) c2 a2 hc2)]
          exact ⟨List.Perm.refl _, rfl⟩

def w5a : Row := [.s "2024-01-01 10:00", .s "A", .s "", .s "1", .s "", .s ""]

def w5b : Row := [.s "2024-01-01 10:00", .s "B", .s "", .s "2", .s "", .s ""]

def w5df : DF := DF.mk COLUMNS [w5a, w5b]

theorem c10_witness :
    ((_apply_sort w5df (some "値") false (some "日時") true).rows).Perm w5df.rows ∧
    (_apply_sort w5df (some "値") false (some "日時") true).cols = w5df.cols :=
  c10_sort_permutation w5df (some "値") false (some "日時") true rfl (by decide)

/-- Claim C5: the sort is stable — whenever two records of a table over the
managed schema compare equal on every configured sort key (keys drawn from
the schema's columns, as the UI offers), the pair keeps its relative input
order in the sorted output, for every primary/secondary key combination and
every direction. -/
theorem c5_sort_stable (df : DF) (s1 : Option String) (a1 : Bool) (s2 : Option String)
    (a2 : Bool) (hcols : df.cols = COLUMNS)
    (hrect : ∀ r ∈ df.rows, r.length = COLUMNS.length)
    (hs1 : ∀ c, s1 = some c → c ∈ COLUMNS) (hs2 : ∀ c, s2 = some c → c ∈ COLUMNS)
    (r1 r2 : Row) (hsub : [r1, r2] <+ df.rows)
    (hkeys : ∀ c, s1 = some c ∨ s2 = some c → recKey COLUMNS c r1 = recKey COLUMNS c r2) :
    [r1, r2] <+ (_apply_sort df s1 a1 s2 a2).rows := by
  have hlen1 : r1.length = COLUMNS.length := hrect r1 (hsub.subset (by simp))
  have hlen2 : r2.length = COLUMNS.length := hrect r2 (hsub.subset (by simp))
  rcases s1 with _ | c1
  · rcases s2 with _ | c2
    · rw [apply_sort_eq0 df none none a1 a2 rfl rfl]
      exact hsub
    · have hc2m : c2 ∈ COLUMNS := hs2 c2 rfl
      have hc2 : c2 ≠ "" ∧ c2 ∈ df.cols ∧ some c2 ≠ none :=
        ⟨mem_COLUMNS_ne_empty c2 hc2m, by rw [hcols]; exact hc2m, Option.some_ne_none c2⟩
      rw [apply_sort_eq2 df none c2 a1 a2 hcols rfl hc2]
      apply pipeline_pair df.rows (fun r => [recKey COLUMNS c2 r]) ["_sort2"] [a2] r1 r2 hsub
        hrect (by decide)
      unfold rowLE
      rw [rowKeys_single "_sort2" (by decide) r1 _ hlen1,
        rowKeys_single "_sort2" (by decide) r2 _ hlen2,
        hkeys c2 (Or.inr rfl), lexCmp_refl]
      simp
  · have hc1m : c1 ∈ COLUMNS := hs1 c1 rfl
    have hc1 : c1 ≠ "" ∧ c1 ∈ df.cols :=
      ⟨mem_COLUMNS_ne_empty c1 hc1m, by rw [hcols]; exact hc1m⟩
    rcases s2 with _ | c2
    · rw [apply_sort_eq1 df c1 a1 none a2 hcols hc1 (fun c h => by cases h)]
      apply pipeline_pair df.rows (fun r => [recKey COLUMNS c1 r]) ["_sort1"] [a1] r1 r2 hsub
        hrect (by decide)
      unfold rowLE
      rw [rowKeys_single "_sort1" (by decide) r1 _ hlen1,
        rowKeys_single "_sort1" (by decide) r2 _ hlen2,
        hkeys c1 (Or.inl rfl), lexCmp_refl]
      simp
    · by_cases he : c2 = c1
      · rw [apply_sort_eq1 df c1 a1 (some c2) a2 hcols hc1
          (fun c h => by
            injection h with h3
            subst h3
            exact fun hcon => hcon.2.2 (by rw [he]))]
        apply pipeline_pair df.rows (fun r => [recKey COLUMNS c1 r]) ["_sort1"] [a1] r1 r2 hsub
          hrect (by decide)
        unfold rowLE
        rw [rowKeys_single "_sort1" (by decide) r1 _ hlen1,
          rowKeys_single "_sort1" (by decide) r2 _ hlen2,
          hkeys c1 (Or.inl rfl), lexCmp_refl]
        simp
      · have hc2m : c2 ∈ COLUMNS := hs2 c2 rfl
        have hc2 : c2 ≠ "" ∧ c2 ∈ COLUMNS ++ ["_sort1"] ∧ some c2 ≠ some c1 :=
          ⟨mem_COLUMNS_ne_empty c2 hc2m, List.mem_append_left _ hc2m, by simpa using he⟩
        rw [apply_sort_eq3 df c1 c2 a1 a2 hcols hc1 hc2]
        apply pipeline_pair df.rows
          (fun r => [recKey COLUMNS c1 r,
            recKey (COLUMNS ++ ["_sort1"]) c2 (r ++ [recKey COLUMNS c1 r])])
          ["_sort1", "_sort2"] [a1, a2] r1 r2 hsub hrect (by decide)
        unfold rowLE
        rw [rowKeys_pair r1 _ _ hlen1, rowKeys_pair r2 _ _ hlen2,
          recKey_append ["_sort1"] c2 r1 _ hc2m hlen1,
          recKey_append ["_sort1"] c2 r2 _ hc2m hlen2,
          hkeys c1 (Or.inl rfl), hkeys c2 (Or.inr rfl), lexCmp_refl]
        simp

theorem c5_witness : [w5a, w5b] <+ (_apply_sort w5df (some "日時") false none true).rows :=
  c5_sort_stable w5df (some "日時") false none true rfl (by decide)
    (fun c h => by injection h with h2; rw [← h2]; decide)
    (fun c h => by cases h)
    w5a w5b (List.Sublist.refl _)
    (fun c h => by
      rcases h with h | h
      · injection h with h2
        subst h2
        decide
      · cases h)

end GVL
